import Mathlib

/-
  Verification of the na_ref_ptr library (include/na/ref_ptr.hpp).

  The library boxes a value in `referable<type>` (or derives it from
  `enable_ref_from_this<type>`) and hands out non-owning `ref_ptr<type>`
  handles.  Three bookkeeping strategies exist: uncounted (no bookkeeping),
  counted (an atomic size_t per box) and tracked (an intrusive doubly linked
  list of per-handle nodes guarded by a mutex).  All code below is a shallow
  embedding of the header, translated statement by statement; concurrency is
  not modelled (all claims are about sequential executions), and machine
  integers (std::size_t) are modelled as Nat with explicit reduction
  modulo 2 ^ 64.  Fallible heap accesses (dereferencing a null or absent
  pointer, which is undefined behaviour in the source) return `none`.
-/

namespace NaRefPtr

/-- The modulus of std::size_t arithmetic (64-bit builds). -/
def size_t_mod : Nat := 2 ^ 64

/-- `++n` on a std::size_t. -/
def size_t_add_one (n : Nat) : Nat := (n + 1) % size_t_mod

/-- `--n` on a std::size_t (wraps around at 0). -/
def size_t_sub_one (n : Nat) : Nat := (n + (size_t_mod - 1)) % size_t_mod

/-
  ## Counted strategy (`na_ref_ptr_counted`)

  Every `referable` / `enable_ref_from_this` object owns one
  `std::atomic_size_t ref_count`, and a `ref_ptr` holds a raw pointer to it
  (null for an empty handle).  We model the collection of all counters as a
  total map from counter identity (the address of the owning box) to its
  current value; `fresh_cregs` is the state in which every box has just been
  constructed (`ref_count{0}` in every constructor of the header).
-/

/-- All counted registries, indexed by the owning box's identity. -/
abbrev CRegs := Nat → Nat

/-- `ref_ptr::add_ref` (counted): `++(*ref_count)` on the registry `r`. -/
def c_add_ref (regs : CRegs) (r : Nat) : CRegs :=
  fun x => if x = r then size_t_add_one (regs x) else regs x

/-- `ref_ptr::remove_ref` (counted): `--(*ref_count)` on the registry `r`. -/
def c_remove_ref (regs : CRegs) (r : Nat) : CRegs :=
  fun x => if x = r then size_t_sub_one (regs x) else regs x

/-- Registry state in which every box was freshly constructed with
`ref_count{0}`. -/
def fresh_cregs : CRegs := fun _ => 0

/-- Identity of one `referable<ref_type>` box: the address of its
`ref_count` member and the address of its `value` member. -/
structure CReferable where
  regId : Nat
  valueAddr : Nat
deriving DecidableEq, Repr

/-- A counted `ref_ptr`: `std::atomic_size_t *ref_count` (none = nullptr)
and `type *value` (none = nullptr). -/
structure CHandle where
  ref_count : Option Nat
  value : Option Nat
deriving DecidableEq, Repr

/-- `operator bool`: `value != nullptr`. -/
def cref_bool (h : CHandle) : Bool := h.value.isSome

/-- `ref_ptr(referable<ref_type> &ref)` (counted):
`ref_count{&ref.ref_count}, value{&ref.value}` then `add_ref()`.
Returns the constructed handle and the updated registries. -/
def cref_ctor_from_referable (regs : CRegs) (b : CReferable) : CHandle × CRegs :=
  (⟨some b.regId, some b.valueAddr⟩, c_add_ref regs b.regId)

/-- `ref_ptr(referable<ref_type> &ref, value_type ref_type::*mem_var_ptr)`
(counted): `ref_count{&ref.ref_count}, value{&(ref.value.*mem_var_ptr)}`
then `add_ref()`.  The sub-object address is `fieldAddr`. -/
def cref_ctor_project (regs : CRegs) (b : CReferable) (fieldAddr : Nat) : CHandle × CRegs :=
  (⟨some b.regId, some fieldAddr⟩, c_add_ref regs b.regId)

/-- `ref_ptr(const ref_ptr<other_type> &other)` (counted):
copies `ref_count` and `value`, then `add_ref()` if `ref_count != nullptr`.
Returns (new handle, source handle after the call, registries after). -/
def cref_copy_ctor (regs : CRegs) (other : CHandle) : CHandle × CHandle × CRegs :=
  match other.ref_count with
  | some r => (⟨other.ref_count, other.value⟩, other, c_add_ref regs r)
  | none => (⟨other.ref_count, other.value⟩, other, regs)

/-- `ref_ptr(ref_ptr<other_type> &&other)` (counted): copies `ref_count`
and `value`, then nulls both members of `other`; no registry operation.
Returns (new handle, source handle after the call, registries after). -/
def cref_move_ctor (regs : CRegs) (other : CHandle) : CHandle × CHandle × CRegs :=
  (⟨other.ref_count, other.value⟩, ⟨none, none⟩, regs)

/-- `~ref_ptr()` (counted): `if (ref_count != nullptr) remove_ref();`. -/
def cref_dtor (regs : CRegs) (h : CHandle) : CRegs :=
  match h.ref_count with
  | some r => c_remove_ref regs r
  | none => regs

/-- `operator=(const ref_ptr &other)` evaluated with `this == &other`:
the guard `if (this == &other) return *this;` fires, so nothing changes. -/
def cref_copy_assign_self (regs : CRegs) (h : CHandle) : CHandle × CRegs :=
  (h, regs)

/-- `operator=(ref_ptr &&other)` (counted) evaluated with `this == &other`
(the move assignment operator has no self-assignment guard).  Statement by
statement, with `this` and `other` aliased to the same handle `h`:
1. `if (this->ref_count != nullptr) this->remove_ref();`  (decrements)
2. `this->ref_count = other.ref_count;`  (aliased: no effect)
3. `other.ref_count = nullptr;`          (nulls the aliased member)
4. `this->value = other.value;`          (aliased: no effect)
5. `other.value = nullptr;`              (nulls the aliased member) -/
def cref_move_assign_self (regs : CRegs) (h : CHandle) : CHandle × CRegs :=
  match h.ref_count with
  | some r => (⟨none, none⟩, c_remove_ref regs r)
  | none => (⟨none, none⟩, regs)

/-- Construct `n` independent handles against the box `b`, most recent
first (each `ref_ptr(referable&)` constructor registers exactly once). -/
def mkNHandles (regs : CRegs) (b : CReferable) : Nat → List CHandle × CRegs
  | 0 => ([], regs)
  | n + 1 =>
    let p := mkNHandles regs b n
    let q := cref_ctor_from_referable p.2 b
    (q.1 :: p.1, q.2)

/-- Destroy the given handles one at a time (left to right). -/
def destroyHandles (regs : CRegs) : List CHandle → CRegs
  | [] => regs
  | h :: rest => destroyHandles (cref_dtor regs h) rest

/-- `~referable()` (counted): `if (ref_count != 0)` invoke the failure
handler with `"Referable after free detected"`.  The result is the list of
handler invocations performed by the destructor. -/
def counted_referable_dtor (c : Nat) : List String :=
  if c ≠ 0 then ["Referable after free detected"] else []

/-- `~enable_ref_from_this()` (counted): same body as `~referable()`. -/
def counted_erft_dtor (c : Nat) : List String :=
  if c ≠ 0 then ["Referable after free detected"] else []

/-
  ## enable_ref_from_this special member functions (counted)

  The copy and move constructors initialise the new object's counter with
  `ref_count{0}` and ignore the source entirely; the copy and move
  assignment operators have empty bodies, so the destination's counter is
  left untouched.
-/

/-- `enable_ref_from_this(const enable_ref_from_this &other)`:
`ref_count{0}`; the new object's count, given the source object's count. -/
def erft_copy_ctor_count (_source : Nat) : Nat := 0

/-- `enable_ref_from_this(enable_ref_from_this &&other)`: `ref_count{0}`. -/
def erft_move_ctor_count (_source : Nat) : Nat := 0

/-- `operator=(const enable_ref_from_this &)`: empty body; the
destination's count after assignment, given destination and source counts. -/
def erft_copy_assign_count (dest _source : Nat) : Nat := dest

/-- `operator=(enable_ref_from_this &&)`: empty body. -/
def erft_move_assign_count (dest _source : Nat) : Nat := dest

/-
  ## The default referable-after-free handler (header lines 42-46)

  `detail::referable_after_free_handler_instance` is initialised to a
  lambda that writes the message to stderr, executes `__debugbreak()` and
  then calls `std::terminate()` - unconditionally, whether or not the
  translation unit is compiled with exceptions.
-/

/-- Observable effects a failure handler can perform. -/
inductive HandlerEffect where
  | wroteStderr (msg : String)
  | debugBreak
  | terminated
  | raisedExc (msg : String)
deriving DecidableEq, Repr

/-- The default handler installed in
`detail::referable_after_free_handler_instance`: `std::fputs(msg, stderr);
__debugbreak(); std::terminate();`.  Its behaviour does not depend on
whether exceptions are enabled. -/
def default_handler (_exceptionsEnabled : Bool) (msg : String) : List HandlerEffect :=
  [HandlerEffect.wroteStderr msg, HandlerEffect.debugBreak, HandlerEffect.terminated]

/-- The behaviour the specification describes for the default handler
(raise a structured error carrying the message if exceptions are enabled,
terminate otherwise), stated for comparison with `default_handler`. -/
def spec_default_handler (exceptionsEnabled : Bool) (msg : String) : List HandlerEffect :=
  if exceptionsEnabled then [HandlerEffect.raisedExc msg] else [HandlerEffect.terminated]

/-
  ## Build-time strategy selection (header lines 9-19 and 1030-1048)

  If none of the three selection macros is defined the header tests
  `#ifdef NDEBUB` (sic - the standard optimised-build macro is spelled
  NDEBUG) and defines `na_ref_ptr_counted` when it is set, otherwise
  `na_ref_ptr_tracked`.  The alias block then picks uncounted, else
  counted, else tracked.
-/

/-- The three ref_ptr implementations. -/
inductive Strategy where
  | uncounted
  | counted
  | tracked
deriving DecidableEq, Repr

/-- Preprocessor state relevant to strategy selection: whether each macro
is defined when the header is included. -/
structure BuildFlags where
  def_uncounted : Bool
  def_counted : Bool
  def_tracked : Bool
  def_NDEBUG : Bool
  def_NDEBUB : Bool
deriving DecidableEq, Repr

/-- The implementation the header compiles in, as a function of the
preprocessor state.  Faithful to the source: the default branch tests the
misspelled macro `NDEBUB`, not `NDEBUG`. -/
def selectImpl (f : BuildFlags) : Strategy :=
  let f2 :=
    if f.def_uncounted || f.def_counted || f.def_tracked then f
    else if f.def_NDEBUB then { f with def_counted := true }
    else { f with def_tracked := true }
  if f2.def_uncounted then Strategy.uncounted
  else if f2.def_counted then Strategy.counted
  else Strategy.tracked

/-
  ## Tracked strategy (`na_ref_ptr_tracked`)

  A `ref_counter` owns a mutex, a `std::size_t ref_count` and a sentinel
  `ref_list_node head`; every live handle contributes one `ref_list_node`
  member recording a `std::source_location`.  We model node storage as a
  heap mapping addresses to node records (source locations are abstracted
  to Nat tags), and a `ref_counter` as the heap together with the address
  of its sentinel and its count.  A null pointer is `none`; looking up an
  address with no node (a dangling or null dereference, undefined
  behaviour in C++) makes the operation return `none`.
-/

/-- `ref_list_node`: `prev`, `next` and the recorded source location. -/
structure RefListNode where
  prev : Option Nat
  next : Option Nat
  location : Nat
deriving DecidableEq, Repr

/-- Node storage: address to node record. -/
abbrev Heap := Nat → Option RefListNode

/-- Write the record at address `a`. -/
def hset (h : Heap) (a : Nat) (nd : RefListNode) : Heap :=
  fun x => if x = a then some nd else h x

/-- A `ref_counter`: its node heap, its sentinel `head`'s address and its
`ref_count`. -/
structure RefCounter where
  heap : Heap
  headAddr : Nat
  ref_count : Nat

/-- `ref_counter(0, loc)` as run by every `referable` /
`enable_ref_from_this` constructor (tracked): count 0, the sentinel node
freshly constructed with null links and the owner's source location. -/
def freshCounter (headAddr tag : Nat) : RefCounter :=
  { heap := hset (fun _ => none) headAddr { prev := none, next := none, location := tag },
    headAddr := headAddr,
    ref_count := 0 }

/-- `ref_counter::get_ref()`. -/
def get_ref (rc : RefCounter) : Nat := rc.ref_count

/-- `ref_counter::add_ref(node)`:
`++ref_count; node->next = head.next; node->prev = &head; head.next = node;`
Note that the old front node's `prev` is NOT updated. -/
def add_ref (rc : RefCounter) (node : Nat) : Option RefCounter :=
  match rc.heap rc.headAddr with
  | none => none
  | some hd0 =>
    match rc.heap node with
    | none => none
    | some nd0 =>
      let h1 := hset rc.heap node { nd0 with next := hd0.next, prev := some rc.headAddr }
      match h1 rc.headAddr with
      | none => none
      | some hd1 =>
        some { heap := hset h1 rc.headAddr { hd1 with next := some node },
               headAddr := rc.headAddr,
               ref_count := size_t_add_one rc.ref_count }

/-- `ref_counter::remove_ref(node)`:
`--ref_count; node->prev->next = node->next;
if (node->next != nullptr) node->next->prev = node->prev;
node->prev = nullptr; node->next = nullptr;`
Dereferencing a null `node->prev` (or an address with no node) yields
`none`. -/
def remove_ref (rc : RefCounter) (node : Nat) : Option RefCounter :=
  match rc.heap node with
  | none => none
  | some nd0 =>
    match nd0.prev with
    | none => none
    | some pa =>
      match rc.heap pa with
      | none => none
      | some pn =>
        let h1 := hset rc.heap pa { pn with next := nd0.next }
        match h1 node with
        | none => none
        | some nd1 =>
          let h2step : Option Heap :=
            match nd1.next with
            | none => some h1
            | some na =>
              match h1 na with
              | none => none
              | some nn => some (hset h1 na { nn with prev := nd1.prev })
          match h2step with
          | none => none
          | some h2 =>
            match h2 node with
            | none => none
            | some nd2 =>
              some { heap := hset h2 node { nd2 with prev := none, next := none },
                     headAddr := rc.headAddr,
                     ref_count := size_t_sub_one rc.ref_count }

/-- Construct a fresh `ref_list_node` at address `addr` (a member of a
newly constructed `ref_ptr`): `ref_list_node(loc)` leaves `prev` and
`next` null and records the location. -/
def newNode (rc : RefCounter) (addr tag : Nat) : RefCounter :=
  { rc with heap := hset rc.heap addr { prev := none, next := none, location := tag } }

/-- A registering `ref_ptr` constructor (tracked): construct the handle's
`list_node{loc}` member, then `ref_count->add_ref(&list_node)`. -/
def registerHandle (rc : RefCounter) (addr tag : Nat) : Option RefCounter :=
  add_ref (newNode rc addr tag) addr

/-- The tag walk of `ref_counter::get_referable_after_free_message`:
`node = head.next; while (node != nullptr) { emit node->location; node = node->next; }`
`fuel` bounds the walk so the function is total; every theorem below
supplies enough fuel for the walk it examines. -/
def collectTags (h : Heap) : Nat → Option Nat → List Nat
  | 0, _ => []
  | _ + 1, none => []
  | fuel + 1, some a =>
    match h a with
    | none => []
    | some nd => nd.location :: collectTags h fuel nd.next

/-- The list of active-reference locations enumerated by
`get_referable_after_free_message`. -/
def messageTags (rc : RefCounter) (fuel : Nat) : List Nat :=
  match rc.heap rc.headAddr with
  | none => []
  | some hd => collectTags rc.heap fuel hd.next

/-- `~referable()` (tracked): `if (ref_count.get_ref() != 0)` invoke the
handler with `get_referable_after_free_message()`.  Each invocation is
recorded as the count together with the enumerated tags. -/
def tracked_referable_dtor (rc : RefCounter) (fuel : Nat) : List (Nat × List Nat) :=
  if get_ref rc ≠ 0 then [(get_ref rc, messageTags rc fuel)] else []

/-- `~enable_ref_from_this()` (tracked): same body as `~referable()`. -/
def tracked_erft_dtor (rc : RefCounter) (fuel : Nat) : List (Nat × List Nat) :=
  if get_ref rc ≠ 0 then [(get_ref rc, messageTags rc fuel)] else []

/-- A tracked `ref_ptr` bound to (at most) the one modelled registry:
whether its `ref_counter *ref_count` is non-null, the address of its
embedded `list_node` member, and its `type *value`. -/
structure THandle where
  hasReg : Bool
  nodeAddr : Nat
  value : Option Nat
deriving DecidableEq, Repr

/-- `ref_ptr(const ref_ptr<other_type> &other)` (tracked): copies
`ref_count` and `value`, constructs `list_node{loc}` at the new handle's
address, then `add_ref(&list_node)` if `ref_count != nullptr`. -/
def tref_copy_ctor (rc : RefCounter) (other : THandle) (newAddr tag : Nat) :
    Option (THandle × RefCounter) :=
  if other.hasReg then
    (registerHandle rc newAddr tag).map (fun rc1 => (⟨true, newAddr, other.value⟩, rc1))
  else
    some (⟨false, newAddr, other.value⟩, newNode rc newAddr tag)

/-- `ref_ptr(ref_ptr<other_type> &&other)` (tracked): copies `ref_count`
and `value`, constructs its own fresh `list_node{loc}`, nulls `other`'s
members, and performs NO registry operation - the source's already linked
node stays in the list.  Returns (new handle, source after, registry
after). -/
def tref_move_ctor (rc : RefCounter) (other : THandle) (newAddr tag : Nat) :
    THandle × THandle × RefCounter :=
  (⟨other.hasReg, newAddr, other.value⟩, ⟨false, other.nodeAddr, none⟩, newNode rc newAddr tag)

/-- `~ref_ptr()` (tracked): `if (ref_count != nullptr)
ref_count->remove_ref(&list_node);`. -/
def tref_dtor (rc : RefCounter) (h : THandle) : Option RefCounter :=
  if h.hasReg then remove_ref rc h.nodeAddr else some rc

/-- `operator=(ref_ptr &&other)` (tracked) evaluated with `this == &other`
(no self-assignment guard).  With `this` and `other` aliased to `h`:
1. `if (this->ref_count != nullptr) this->remove_ref();`
2. `this->ref_count = other.ref_count;` (aliased: no effect)
3. `if (other.ref_count != nullptr) other.remove_ref();` (same node again)
4. `if (this->ref_count != nullptr) this->add_ref();`
5. `other.ref_count = nullptr; this->value = other.value;
   other.value = nullptr;` -/
def tref_move_assign_self (rc : RefCounter) (h : THandle) : Option (THandle × RefCounter) :=
  match (if h.hasReg then remove_ref rc h.nodeAddr else some rc) with
  | none => none
  | some rc1 =>
    match (if h.hasReg then remove_ref rc1 h.nodeAddr else some rc1) with
    | none => none
    | some rc2 =>
      match (if h.hasReg then add_ref rc2 h.nodeAddr else some rc2) with
      | none => none
      | some rc3 => some (⟨false, h.nodeAddr, none⟩, rc3)

/-
  ## Registration traces

  `TrOp` is one registry operation as performed by handle constructors and
  destructors: `add a t` registers a handle whose node lives at address `a`
  with recorded location `t` (the node is constructed and then passed to
  `add_ref`), `remove a` deregisters it (`remove_ref`).  `absRun` computes,
  at the specification level, the stack of currently-registered handles -
  most recently registered first - for a valid trace: an `add` must use a
  fresh address and a `remove` must name a currently registered one.
-/

/-- One registry operation. -/
inductive TrOp where
  | add (addr tag : Nat)
  | remove (addr : Nat)
deriving DecidableEq, Repr

/-- Remove the first pair whose address is `a`. -/
def eraseAddr : List (Nat × Nat) → Nat → List (Nat × Nat)
  | [], _ => []
  | (b, t) :: rest, a => if b = a then rest else (b, t) :: eraseAddr rest a

/-- Specification-level effect of one operation on the stack of
currently-registered handles (most recently registered first). -/
def absStep (headAddr : Nat) (l : List (Nat × Nat)) : TrOp → Option (List (Nat × Nat))
  | TrOp.add a t =>
    if a = headAddr ∨ a ∈ l.map Prod.fst then none else some ((a, t) :: l)
  | TrOp.remove a =>
    if a ∈ l.map Prod.fst then some (eraseAddr l a) else none

/-- Specification-level run of a trace. -/
def absRun (headAddr : Nat) : List (Nat × Nat) → List TrOp → Option (List (Nat × Nat))
  | l, [] => some l
  | l, op :: rest => (absStep headAddr l op).bind (fun l2 => absRun headAddr l2 rest)

/-- Concrete effect of one operation on the registry. -/
def trStep (rc : RefCounter) : TrOp → Option RefCounter
  | TrOp.add a t => registerHandle rc a t
  | TrOp.remove a => remove_ref rc a

/-- Concrete run of a trace. -/
def trRun (rc : RefCounter) : List TrOp → Option RefCounter
  | [] => some rc
  | op :: rest => (trStep rc op).bind (fun rc2 => trRun rc2 rest)

/-- `nextOk h o`: the pointer `o` is null or points at a node present in
`h`. -/
def nextOk (h : Heap) : Option Nat → Prop
  | none => True
  | some a => ∃ nd, h a = some nd

/-- The state invariant the tracked registry actually maintains.  Because
`add_ref` never updates the old front node's `prev`, every registered
node's `prev` permanently points at the sentinel; the count equals the
number of registered handles; and every reachable `next` pointer is null
or points at allocated storage. -/
structure TrackedInv (rc : RefCounter) (regs : List (Nat × Nat)) : Prop where
  head_mem : ∃ hd, rc.heap rc.headAddr = some hd ∧ nextOk rc.heap hd.next
  node_mem : ∀ p ∈ regs, ∃ nd, rc.heap p.1 = some nd ∧ nd.prev = some rc.headAddr
               ∧ nd.location = p.2 ∧ nextOk rc.heap nd.next
  not_head : ∀ p ∈ regs, p.1 ≠ rc.headAddr
  nodup : (regs.map Prod.fst).Nodup
  count_eq : rc.ref_count = regs.length
  count_lt : regs.length < size_t_mod

/-
  ## Basic lemmas
-/

theorem hset_same (h : Heap) (a : Nat) (nd : RefListNode) : hset h a nd a = some nd := by
  simp [hset]

theorem hset_other (h : Heap) (a : Nat) (nd : RefListNode) (x : Nat) (hx : x ≠ a) :
    hset h a nd x = h x := by
  simp [hset, hx]

theorem nextOk_mono (h : Heap) (a : Nat) (nd : RefListNode) (o : Option Nat)
    (ho : nextOk h o) : nextOk (hset h a nd) o := by
  cases o with
  | none => trivial
  | some m =>
    by_cases hm : m = a
    · exact ⟨nd, by rw [hm]; exact hset_same h a nd⟩
    · obtain ⟨x, hx⟩ := ho
      exact ⟨x, by rw [hset_other h a nd m hm]; exact hx⟩

theorem size_t_mod_pos : 0 < size_t_mod := by
  unfold size_t_mod
  exact Nat.pos_pow_of_pos 64 (by omega)

theorem size_t_add_one_eq (n : Nat) (hn : n + 1 < size_t_mod) : size_t_add_one n = n + 1 := by
  unfold size_t_add_one
  exact Nat.mod_eq_of_lt hn

theorem size_t_sub_one_eq (n : Nat) (h0 : 0 < n) (hn : n < size_t_mod) :
    size_t_sub_one n = n - 1 := by
  unfold size_t_sub_one
  have hm : 0 < size_t_mod := size_t_mod_pos
  have h1 : n + (size_t_mod - 1) = (n - 1) + 1 * size_t_mod := by omega
  rw [h1, Nat.add_mul_mod_self_right]
  exact Nat.mod_eq_of_lt (by omega)

theorem eraseAddr_subset (l : List (Nat × Nat)) (a : Nat) (q : Nat × Nat)
    (hq : q ∈ eraseAddr l a) : q ∈ l := by
  induction l with
  | nil => simp [eraseAddr] at hq
  | cons p rest ih =>
    obtain ⟨b, t⟩ := p
    by_cases hb : b = a
    · simp only [eraseAddr, if_pos hb] at hq
      exact List.mem_cons_of_mem _ hq
    · simp only [eraseAddr, if_neg hb] at hq
      rw [List.mem_cons] at hq
      rcases hq with hq | hq
      · simp [hq]
      · exact List.mem_cons_of_mem _ (ih hq)

theorem eraseAddr_fst_ne (l : List (Nat × Nat)) (a : Nat) (q : Nat × Nat)
    (hnd : (l.map Prod.fst).Nodup) (hq : q ∈ eraseAddr l a) : q.1 ≠ a := by
  induction l with
  | nil => simp [eraseAddr] at hq
  | cons p rest ih =>
    obtain ⟨b, t⟩ := p
    simp only [List.map_cons, List.nodup_cons] at hnd
    by_cases hb : b = a
    · simp only [eraseAddr, if_pos hb] at hq
      intro hqa
      have hm : q.1 ∈ List.map Prod.fst rest := List.mem_map_of_mem Prod.fst hq
      rw [hqa, ← hb] at hm
      exact hnd.1 hm
    · simp only [eraseAddr, if_neg hb] at hq
      rw [List.mem_cons] at hq
      rcases hq with hq | hq
      · rw [hq]; exact hb
      · exact ih hnd.2 hq

theorem eraseAddr_nodup (l : List (Nat × Nat)) (a : Nat)
    (hnd : (l.map Prod.fst).Nodup) : ((eraseAddr l a).map Prod.fst).Nodup := by
  induction l with
  | nil => simp [eraseAddr]
  | cons p rest ih =>
    obtain ⟨b, t⟩ := p
    simp only [List.map_cons, List.nodup_cons] at hnd
    by_cases hb : b = a
    · simp only [eraseAddr, if_pos hb]
      exact hnd.2
    · simp only [eraseAddr, if_neg hb, List.map_cons, List.nodup_cons]
      refine ⟨fun hmem => ?_, ih hnd.2⟩
      obtain ⟨q, hq, hqb⟩ := List.mem_map.mp hmem
      exact hnd.1 (hqb ▸ List.mem_map_of_mem Prod.fst (eraseAddr_subset rest a q hq))

theorem eraseAddr_length (l : List (Nat × Nat)) (a : Nat)
    (hmem : a ∈ l.map Prod.fst) : (eraseAddr l a).length + 1 = l.length := by
  induction l with
  | nil => simp at hmem
  | cons p rest ih =>
    obtain ⟨b, t⟩ := p
    by_cases hb : b = a
    · simp [eraseAddr, hb]
    · simp only [List.map_cons, List.mem_cons] at hmem
      rcases hmem with hmem | hmem
      · exact absurd hmem.symm hb
      · simp only [eraseAddr, if_neg hb, List.length_cons]
        rw [← ih hmem]

theorem exists_of_mem_map_fst (l : List (Nat × Nat)) (a : Nat)
    (h : a ∈ l.map Prod.fst) : ∃ t, (a, t) ∈ l := by
  obtain ⟨q, hq, hqa⟩ := List.mem_map.mp h
  exact ⟨q.2, by rwa [show (a, q.2) = q from Prod.ext hqa.symm rfl]⟩

/-
  ## Computation lemmas for add_ref / remove_ref
-/

theorem add_ref_spec (rc : RefCounter) (a : Nat) (hd nd : RefListNode)
    (hne : rc.headAddr ≠ a)
    (hhd : rc.heap rc.headAddr = some hd) (hnd : rc.heap a = some nd) :
    add_ref rc a = some
      { heap := hset (hset rc.heap a ⟨some rc.headAddr, hd.next, nd.location⟩)
          rc.headAddr ⟨hd.prev, some a, hd.location⟩,
        headAddr := rc.headAddr,
        ref_count := size_t_add_one rc.ref_count } := by
  unfold add_ref
  rw [hhd, hnd]
  simp only []
  rw [hset_other rc.heap a _ rc.headAddr hne, hhd]

theorem remove_ref_spec_last (rc : RefCounter) (a : Nat) (hd nd : RefListNode)
    (hne : a ≠ rc.headAddr)
    (hhd : rc.heap rc.headAddr = some hd) (hnd : rc.heap a = some nd)
    (hprev : nd.prev = some rc.headAddr) (hnext : nd.next = none) :
    remove_ref rc a = some
      { heap := hset (hset rc.heap rc.headAddr ⟨hd.prev, nd.next, hd.location⟩)
          a ⟨none, none, nd.location⟩,
        headAddr := rc.headAddr,
        ref_count := size_t_sub_one rc.ref_count } := by
  unfold remove_ref
  rw [hnd]
  simp only []
  rw [hprev]
  simp only []
  rw [hhd]
  simp only []
  rw [hset_other rc.heap rc.headAddr _ a hne, hnd]
  simp only []
  rw [hnext]
  simp only []
  rw [hset_other rc.heap rc.headAddr _ a hne, hnd]

theorem remove_ref_spec_mid (rc : RefCounter) (a m : Nat) (hd nd nn : RefListNode)
    (hne : a ≠ rc.headAddr)
    (hhd : rc.heap rc.headAddr = some hd) (hnd : rc.heap a = some nd)
    (hprev : nd.prev = some rc.headAddr) (hnext : nd.next = some m)
    (hnn : hset rc.heap rc.headAddr ⟨hd.prev, nd.next, hd.location⟩ m = some nn) :
    remove_ref rc a = some
      { heap := hset (hset (hset rc.heap rc.headAddr ⟨hd.prev, nd.next, hd.location⟩)
          m ⟨some rc.headAddr, nn.next, nn.location⟩) a ⟨none, none, nd.location⟩,
        headAddr := rc.headAddr,
        ref_count := size_t_sub_one rc.ref_count } := by
  have hnn2 : hset rc.heap rc.headAddr ⟨hd.prev, some m, hd.location⟩ m = some nn := by
    rw [← hnext]; exact hnn
  unfold remove_ref
  rw [hnd]
  simp only []
  rw [hprev]
  simp only []
  rw [hhd]
  simp only []
  rw [hset_other rc.heap rc.headAddr _ a hne, hnd]
  simp only []
  rw [hnext]
  simp only []
  rw [hnn2, hprev]
  simp only []
  by_cases hma : a = m
  · subst hma
    rw [hset_same]
    have hloc : nn.location = nd.location := by
      rw [hset_other rc.heap rc.headAddr _ a hne, hnd] at hnn2
      cases hnn2
      rfl
    rw [hloc]
  · rw [hset_other _ m _ a hma, hset_other rc.heap rc.headAddr _ a hne, hnd]

/-
  ## Invariant preservation
-/

theorem freshCounter_inv (ha t : Nat) : TrackedInv (freshCounter ha t) [] := by
  refine ⟨⟨⟨none, none, t⟩, ?_, trivial⟩, ?_, ?_, ?_, rfl, size_t_mod_pos⟩
  · show hset (fun _ => none) ha ⟨none, none, t⟩ ha = some ⟨none, none, t⟩
    exact hset_same _ _ _
  · intro p hp; simp at hp
  · intro p hp; simp at hp
  · simp

theorem registerHandle_inv (rc : RefCounter) (regs : List (Nat × Nat)) (a t : Nat)
    (inv : TrackedInv rc regs) (hna : a ≠ rc.headAddr)
    (hmem : a ∉ regs.map Prod.fst) (hlen : regs.length + 1 < size_t_mod) :
    ∃ rc', registerHandle rc a t = some rc'
      ∧ rc'.headAddr = rc.headAddr
      ∧ rc'.ref_count = rc.ref_count + 1
      ∧ TrackedInv rc' ((a, t) :: regs) := by
  obtain ⟨hd, hhd, hnok⟩ := inv.head_mem
  have h0hd : (newNode rc a t).heap (newNode rc a t).headAddr = some hd := by
    show hset rc.heap a _ rc.headAddr = some hd
    rw [hset_other _ _ _ _ (Ne.symm hna)]
    exact hhd
  have h0nd : (newNode rc a t).heap a = some ⟨none, none, t⟩ := hset_same _ _ _
  have hspec := add_ref_spec (newNode rc a t) a hd ⟨none, none, t⟩ (Ne.symm hna) h0hd h0nd
  have hH : ∀ x, (hset (hset (newNode rc a t).heap a
      ⟨some (newNode rc a t).headAddr, hd.next, t⟩) (newNode rc a t).headAddr
      ⟨hd.prev, some a, hd.location⟩) x
      = (hset (hset (hset rc.heap a ⟨none, none, t⟩) a ⟨some rc.headAddr, hd.next, t⟩)
          rc.headAddr ⟨hd.prev, some a, hd.location⟩) x := fun _ => rfl
  refine ⟨_, hspec, rfl, ?_, ?_⟩
  · show size_t_add_one rc.ref_count = rc.ref_count + 1
    rw [inv.count_eq]
    exact size_t_add_one_eq _ hlen
  · -- the new heap and its lookups
    have hHha : (hset (hset (newNode rc a t).heap a ⟨some (newNode rc a t).headAddr, hd.next, t⟩)
        (newNode rc a t).headAddr ⟨hd.prev, some a, hd.location⟩) rc.headAddr
        = some ⟨hd.prev, some a, hd.location⟩ := by
      rw [hH]
      exact hset_same _ _ _
    have hHa : (hset (hset (newNode rc a t).heap a ⟨some (newNode rc a t).headAddr, hd.next, t⟩)
        (newNode rc a t).headAddr ⟨hd.prev, some a, hd.location⟩) a
        = some ⟨some rc.headAddr, hd.next, t⟩ := by
      rw [hH, hset_other _ _ _ _ hna]
      exact hset_same _ _ _
    have hHother : ∀ x, x ≠ a → x ≠ rc.headAddr →
        (hset (hset (newNode rc a t).heap a ⟨some (newNode rc a t).headAddr, hd.next, t⟩)
          (newNode rc a t).headAddr ⟨hd.prev, some a, hd.location⟩) x = rc.heap x := by
      intro x hxa hxh
      rw [hH, hset_other _ _ _ _ hxh, hset_other _ _ _ _ hxa]
      exact hset_other _ _ _ _ hxa
    have hmono : ∀ o, nextOk rc.heap o →
        nextOk (hset (hset (newNode rc a t).heap a ⟨some (newNode rc a t).headAddr, hd.next, t⟩)
          (newNode rc a t).headAddr ⟨hd.prev, some a, hd.location⟩) o := by
      intro o ho
      have h1 : nextOk (hset rc.heap a ⟨none, none, t⟩) o :=
        nextOk_mono rc.heap a ⟨none, none, t⟩ o ho
      have h2 : nextOk (hset (hset rc.heap a ⟨none, none, t⟩) a
          ⟨some rc.headAddr, hd.next, t⟩) o :=
        nextOk_mono _ a ⟨some rc.headAddr, hd.next, t⟩ o h1
      exact nextOk_mono _ rc.headAddr ⟨hd.prev, some a, hd.location⟩ o h2
    refine ⟨⟨⟨hd.prev, some a, hd.location⟩, hHha, ⟨_, hHa⟩⟩, ?_, ?_, ?_, ?_, ?_⟩
    · intro p hp
      rw [List.mem_cons] at hp
      rcases hp with hp | hp
      · subst hp
        exact ⟨⟨some rc.headAddr, hd.next, t⟩, hHa, rfl, rfl, hmono _ hnok⟩
      · obtain ⟨nd, hnd1, hnd2, hnd3, hnd4⟩ := inv.node_mem p hp
        have hpa : p.1 ≠ a := fun hx => hmem (hx ▸ List.mem_map_of_mem Prod.fst hp)
        exact ⟨nd, (hHother p.1 hpa (inv.not_head p hp)).trans hnd1, hnd2, hnd3, hmono _ hnd4⟩
    · intro p hp
      rw [List.mem_cons] at hp
      rcases hp with hp | hp
      · subst hp; exact hna
      · exact inv.not_head p hp
    · simp only [List.map_cons, List.nodup_cons]
      exact ⟨hmem, inv.nodup⟩
    · show size_t_add_one rc.ref_count = ((a, t) :: regs).length
      rw [inv.count_eq, size_t_add_one_eq _ hlen]
      rfl
    · exact hlen

theorem remove_ref_inv (rc : RefCounter) (regs : List (Nat × Nat)) (a : Nat)
    (inv : TrackedInv rc regs) (hmem : a ∈ regs.map Prod.fst) :
    ∃ rc', remove_ref rc a = some rc'
      ∧ rc'.headAddr = rc.headAddr
      ∧ rc'.ref_count = rc.ref_count - 1
      ∧ TrackedInv rc' (eraseAddr regs a) := by
  obtain ⟨t, hat⟩ := exists_of_mem_map_fst regs a hmem
  obtain ⟨nd, hnd, hprev, hloc, hnok⟩ := inv.node_mem (a, t) hat
  obtain ⟨hd, hhd, hdok⟩ := inv.head_mem
  have hne : a ≠ rc.headAddr := inv.not_head (a, t) hat
  have hlen1 : 0 < regs.length := List.length_pos.mpr (List.ne_nil_of_mem hat)
  have hcnt : size_t_sub_one rc.ref_count = rc.ref_count - 1 := by
    rw [inv.count_eq]
    exact size_t_sub_one_eq _ hlen1 inv.count_lt
  have hcnt2 : rc.ref_count - 1 = (eraseAddr regs a).length := by
    rw [inv.count_eq]
    have := eraseAddr_length regs a hmem
    omega
  have hlt2 : (eraseAddr regs a).length < size_t_mod := by
    have := eraseAddr_length regs a hmem
    have := inv.count_lt
    omega
  -- facts about the erased list
  have hq_mem : ∀ q ∈ eraseAddr regs a, q ∈ regs := fun q hq => eraseAddr_subset regs a q hq
  have hq_ne : ∀ q ∈ eraseAddr regs a, q.1 ≠ a := fun q hq => eraseAddr_fst_ne regs a q inv.nodup hq
  cases hnx : nd.next with
  | none =>
    have hspec := remove_ref_spec_last rc a hd nd hne hhd hnd hprev hnx
    have hHha : (hset (hset rc.heap rc.headAddr ⟨hd.prev, nd.next, hd.location⟩)
        a ⟨none, none, nd.location⟩) rc.headAddr
        = some ⟨hd.prev, nd.next, hd.location⟩ := by
      rw [hset_other _ _ _ _ (Ne.symm hne)]
      exact hset_same _ _ _
    have hHother : ∀ x, x ≠ a → x ≠ rc.headAddr →
        (hset (hset rc.heap rc.headAddr ⟨hd.prev, nd.next, hd.location⟩)
          a ⟨none, none, nd.location⟩) x = rc.heap x := by
      intro x hxa hxh
      rw [hset_other _ _ _ _ hxa]
      exact hset_other _ _ _ _ hxh
    have hmono : ∀ o, nextOk rc.heap o →
        nextOk (hset (hset rc.heap rc.headAddr ⟨hd.prev, nd.next, hd.location⟩)
          a ⟨none, none, nd.location⟩) o := by
      intro o ho
      exact nextOk_mono _ a ⟨none, none, nd.location⟩ o
        (nextOk_mono _ rc.headAddr ⟨hd.prev, nd.next, hd.location⟩ o ho)
    refine ⟨_, hspec, rfl, hcnt, ?_⟩
    refine ⟨⟨⟨hd.prev, nd.next, hd.location⟩, hHha, by rw [hnx]; exact trivial⟩,
      ?_, ?_, ?_, hcnt.trans hcnt2, hlt2⟩
    · intro q hq
      obtain ⟨ndq, h1q, h2q, h3q, h4q⟩ := inv.node_mem q (hq_mem q hq)
      exact ⟨ndq, (hHother q.1 (hq_ne q hq) (inv.not_head q (hq_mem q hq))).trans h1q,
        h2q, h3q, hmono _ h4q⟩
    · intro q hq
      exact inv.not_head q (hq_mem q hq)
    · exact eraseAddr_nodup regs a inv.nodup
  | some m =>
    have hm_present : ∃ nn, hset rc.heap rc.headAddr ⟨hd.prev, nd.next, hd.location⟩ m = some nn := by
      by_cases hmh : m = rc.headAddr
      · subst hmh
        exact ⟨_, hset_same _ _ _⟩
      · rw [hset_other _ _ _ _ hmh]
        have hok : nextOk rc.heap nd.next := hnok
        rw [hnx] at hok
        exact hok
    obtain ⟨nn, hnn⟩ := hm_present
    have hspec := remove_ref_spec_mid rc a m hd nd nn hne hhd hnd hprev hnx hnn
    have hHa : (hset (hset (hset rc.heap rc.headAddr ⟨hd.prev, nd.next, hd.location⟩)
        m ⟨some rc.headAddr, nn.next, nn.location⟩) a ⟨none, none, nd.location⟩) a
        = some ⟨none, none, nd.location⟩ := hset_same _ _ _
    have hHm_ne_a : m ≠ a →
        (hset (hset (hset rc.heap rc.headAddr ⟨hd.prev, nd.next, hd.location⟩)
          m ⟨some rc.headAddr, nn.next, nn.location⟩) a ⟨none, none, nd.location⟩) m
        = some ⟨some rc.headAddr, nn.next, nn.location⟩ := by
      intro hma
      rw [hset_other _ _ _ _ hma]
      exact hset_same _ _ _
    have hHother : ∀ x, x ≠ a → x ≠ rc.headAddr → x ≠ m →
        (hset (hset (hset rc.heap rc.headAddr ⟨hd.prev, nd.next, hd.location⟩)
          m ⟨some rc.headAddr, nn.next, nn.location⟩) a ⟨none, none, nd.location⟩) x
        = rc.heap x := by
      intro x hxa hxh hxm
      rw [hset_other _ _ _ _ hxa, hset_other _ _ _ _ hxm]
      exact hset_other _ _ _ _ hxh
    have hmono : ∀ o, nextOk rc.heap o →
        nextOk (hset (hset (hset rc.heap rc.headAddr ⟨hd.prev, nd.next, hd.location⟩)
          m ⟨some rc.headAddr, nn.next, nn.location⟩) a ⟨none, none, nd.location⟩) o := by
      intro o ho
      exact nextOk_mono _ a ⟨none, none, nd.location⟩ o
        (nextOk_mono _ m ⟨some rc.headAddr, nn.next, nn.location⟩ o
          (nextOk_mono _ rc.headAddr ⟨hd.prev, nd.next, hd.location⟩ o ho))
    have hHm_present : ∃ x,
        (hset (hset (hset rc.heap rc.headAddr ⟨hd.prev, nd.next, hd.location⟩)
          m ⟨some rc.headAddr, nn.next, nn.location⟩) a ⟨none, none, nd.location⟩) m
        = some x := by
      by_cases hma : m = a
      · exact ⟨⟨none, none, nd.location⟩, by rw [hma]; exact hset_same _ _ _⟩
      · exact ⟨_, hHm_ne_a hma⟩
    have hHha : ∃ hdx,
        (hset (hset (hset rc.heap rc.headAddr ⟨hd.prev, nd.next, hd.location⟩)
          m ⟨some rc.headAddr, nn.next, nn.location⟩) a ⟨none, none, nd.location⟩) rc.headAddr
        = some hdx ∧ hdx.next = nd.next := by
      by_cases hmh : m = rc.headAddr
      · refine ⟨⟨some rc.headAddr, nn.next, nn.location⟩, ?_, ?_⟩
        · rw [hset_other _ _ _ _ (Ne.symm hne), ← hmh]
          exact hset_same _ _ _
        · have hnnval : nn = ⟨hd.prev, nd.next, hd.location⟩ := by
            rw [hmh, hset_same] at hnn
            cases hnn
            rfl
          rw [hnnval]
      · refine ⟨⟨hd.prev, nd.next, hd.location⟩, ?_, rfl⟩
        rw [hset_other _ _ _ _ (Ne.symm hne), hset_other _ _ _ _ (fun hx => hmh hx.symm)]
        exact hset_same _ _ _
    obtain ⟨hdx, hhdx, hhdxn⟩ := hHha
    refine ⟨_, hspec, rfl, hcnt, ?_⟩
    refine ⟨⟨hdx, hhdx, ?_⟩, ?_, ?_, ?_, hcnt.trans hcnt2, hlt2⟩
    · rw [hhdxn, hnx]
      have hHm2 := hHm_present
      rw [hnx] at hHm2
      obtain ⟨x, hx⟩ := hHm2
      exact ⟨x, hx⟩
    · intro q hq
      obtain ⟨ndq, h1q, h2q, h3q, h4q⟩ := inv.node_mem q (hq_mem q hq)
      by_cases hqm : q.1 = m
      · -- the successor node had its prev rewritten to &head, which the
        -- invariant requires anyway
        have hnnq : nn = ndq := by
          rw [hqm] at h1q
          by_cases hmh : m = rc.headAddr
          · exact absurd (hqm.trans hmh) (inv.not_head q (hq_mem q hq))
          · rw [hset_other _ _ _ _ hmh] at hnn
            rw [hnn] at h1q
            cases h1q
            rfl
        subst hnnq
        refine ⟨⟨some rc.headAddr, nn.next, nn.location⟩, ?_, rfl, ?_, ?_⟩
        · rw [hqm]
          exact hHm_ne_a (hqm ▸ hq_ne q hq)
        · exact h3q
        · exact hmono _ h4q
      · exact ⟨ndq,
          (hHother q.1 (hq_ne q hq) (inv.not_head q (hq_mem q hq)) hqm).trans h1q,
          h2q, h3q, hmono _ h4q⟩
    · intro q hq
      exact inv.not_head q (hq_mem q hq)
    · exact eraseAddr_nodup regs a inv.nodup

/-
  ## Counted-strategy lemmas
-/

theorem c_add_ref_at (regs : CRegs) (r : Nat) :
    c_add_ref regs r r = size_t_add_one (regs r) := by
  simp [c_add_ref]

theorem c_add_ref_ne (regs : CRegs) (r x : Nat) (hx : x ≠ r) :
    c_add_ref regs r x = regs x := by
  simp [c_add_ref, hx]

theorem c_remove_ref_at (regs : CRegs) (r : Nat) :
    c_remove_ref regs r r = size_t_sub_one (regs r) := by
  simp [c_remove_ref]

theorem c_remove_ref_ne (regs : CRegs) (r x : Nat) (hx : x ≠ r) :
    c_remove_ref regs r x = regs x := by
  simp [c_remove_ref, hx]

theorem mkNHandles_list (regs : CRegs) (b : CReferable) (n : Nat) :
    (mkNHandles regs b n).1 = List.replicate n ⟨some b.regId, some b.valueAddr⟩ := by
  induction n with
  | zero => rfl
  | succ n ih =>
    show (cref_ctor_from_referable (mkNHandles regs b n).2 b).1 :: (mkNHandles regs b n).1
      = List.replicate (n + 1) ⟨some b.regId, some b.valueAddr⟩
    rw [ih, List.replicate_succ]
    rfl

theorem mkNHandles_count (regs : CRegs) (b : CReferable) (n : Nat)
    (hn : regs b.regId + n < size_t_mod) :
    (mkNHandles regs b n).2 b.regId = regs b.regId + n := by
  induction n with
  | zero => rfl
  | succ n ih =>
    have h1 : regs b.regId + n < size_t_mod := by omega
    show c_add_ref (mkNHandles regs b n).2 b.regId b.regId = regs b.regId + (n + 1)
    rw [c_add_ref_at, ih h1, size_t_add_one_eq _ (by omega)]
    omega

theorem destroyHandles_replicate (b : CReferable) (k : Nat) :
    ∀ regs : CRegs, k ≤ regs b.regId → regs b.regId < size_t_mod →
      destroyHandles regs (List.replicate k ⟨some b.regId, some b.valueAddr⟩) b.regId
        = regs b.regId - k := by
  induction k with
  | zero => intro regs h1 h2; rfl
  | succ k ih =>
    intro regs h1 h2
    rw [List.replicate_succ]
    show destroyHandles (cref_dtor regs ⟨some b.regId, some b.valueAddr⟩)
      (List.replicate k ⟨some b.regId, some b.valueAddr⟩) b.regId = regs b.regId - (k + 1)
    have hval : cref_dtor regs ⟨some b.regId, some b.valueAddr⟩ b.regId = regs b.regId - 1 := by
      show c_remove_ref regs b.regId b.regId = regs b.regId - 1
      rw [c_remove_ref_at]
      exact size_t_sub_one_eq _ (by omega) h2
    have hrec := ih (cref_dtor regs ⟨some b.regId, some b.valueAddr⟩)
      (by rw [hval]; omega) (by rw [hval]; omega)
    rw [hrec, hval]
    omega

/-
  ## Claims
-/

/-- C1: a freshly constructed referable has outstanding count 0;
constructing N independent handles against it yields count N; destroying
the handles one at a time decrements the count by exactly 1 per
destruction, monotonically down to 0 - under the counter strategy
(`fresh_cregs` / `mkNHandles` / `destroyHandles`, where after destroying
the first k of the N handles the count is N - k) and under the list
strategy (`freshCounter` starts at 0, `registerHandle` adds exactly 1,
`remove_ref` on a registered handle subtracts exactly 1, and the count
always equals the number of registered handles). -/
theorem claim_C1 (b : CReferable) (N k : Nat) (hN : N < size_t_mod) (hk : k ≤ N) :
    fresh_cregs b.regId = 0
    ∧ (mkNHandles fresh_cregs b N).2 b.regId = N
    ∧ destroyHandles (mkNHandles fresh_cregs b N).2
        ((mkNHandles fresh_cregs b N).1.take k) b.regId = N - k
    ∧ (∀ ha t, get_ref (freshCounter ha t) = 0)
    ∧ (∀ rc regs, TrackedInv rc regs → get_ref rc = regs.length)
    ∧ (∀ rc regs a t, TrackedInv rc regs → a ≠ rc.headAddr → a ∉ regs.map Prod.fst →
        regs.length + 1 < size_t_mod →
        ∃ rc', registerHandle rc a t = some rc' ∧ get_ref rc' = get_ref rc + 1
          ∧ TrackedInv rc' ((a, t) :: regs))
    ∧ (∀ rc regs a, TrackedInv rc regs → a ∈ regs.map Prod.fst →
        ∃ rc', remove_ref rc a = some rc' ∧ get_ref rc' = get_ref rc - 1
          ∧ TrackedInv rc' (eraseAddr regs a)) := by
  have hcount : (mkNHandles fresh_cregs b N).2 b.regId = N := by
    have h := mkNHandles_count fresh_cregs b N (by show 0 + N < size_t_mod; omega)
    rw [h]
    show 0 + N = N
    omega
  refine ⟨rfl, hcount, ?_, fun _ _ => rfl, ?_, ?_, ?_⟩
  · rw [mkNHandles_list fresh_cregs b N, List.take_replicate, Nat.min_eq_left hk]
    have hd := destroyHandles_replicate b k (mkNHandles fresh_cregs b N).2
      (by rw [hcount]; exact hk) (by rw [hcount]; exact hN)
    rw [hd, hcount]
  · intro rc regs hinv
    exact hinv.count_eq
  · intro rc regs a t hinv h1 h2 h3
    obtain ⟨rc', e1, e2, e3, e4⟩ := registerHandle_inv rc regs a t hinv h1 h2 h3
    exact ⟨rc', e1, e3, e4⟩
  · intro rc regs a hinv h1
    obtain ⟨rc', e1, e2, e3, e4⟩ := remove_ref_inv rc regs a hinv h1
    exact ⟨rc', e1, e3, e4⟩

/-- Witness for C1 at the box with counter identity 0 and N = 3, k = 2. -/
theorem claim_C1_witness :
    3 < size_t_mod ∧ 2 ≤ 3
      ∧ (mkNHandles fresh_cregs ⟨0, 1⟩ 3).2 0 = 3
      ∧ destroyHandles (mkNHandles fresh_cregs ⟨0, 1⟩ 3).2
          ((mkNHandles fresh_cregs ⟨0, 1⟩ 3).1.take 2) 0 = 1 :=
  ⟨by decide, by decide,
    (claim_C1 ⟨0, 1⟩ 3 2 (by decide) (by decide)).2.1,
    (claim_C1 ⟨0, 1⟩ 3 2 (by decide) (by decide)).2.2.1⟩

/-- C2: for a non-empty handle h bound to a registry, copy construction
increments that registry's outstanding count by exactly 1, leaves h
unchanged and gives the new handle h's target; move construction leaves
every registry count unchanged, empties h (its boolean conversion becomes
false) and gives the new, non-empty handle h's former target.  Stated for
the counter strategy (`cref_copy_ctor` / `cref_move_ctor`) and the list
strategy (`tref_copy_ctor` / `tref_move_ctor`). -/
theorem claim_C2 (regs : CRegs) (h : CHandle) (r v : Nat)
    (hr : h.ref_count = some r) (hv : h.value = some v)
    (hlt : regs r + 1 < size_t_mod) :
    ((cref_copy_ctor regs h).1 = h
      ∧ (cref_copy_ctor regs h).2.1 = h
      ∧ (cref_copy_ctor regs h).2.2 r = regs r + 1
      ∧ (∀ x, x ≠ r → (cref_copy_ctor regs h).2.2 x = regs x))
    ∧ ((cref_move_ctor regs h).1 = h
      ∧ (cref_move_ctor regs h).2.1 = ⟨none, none⟩
      ∧ cref_bool (cref_move_ctor regs h).2.1 = false
      ∧ cref_bool (cref_move_ctor regs h).1 = true
      ∧ (∀ x, (cref_move_ctor regs h).2.2 x = regs x))
    ∧ (∀ rc regsL th na t, TrackedInv rc regsL → th.hasReg = true →
        na ≠ rc.headAddr → na ∉ regsL.map Prod.fst → regsL.length + 1 < size_t_mod →
        ∃ h2 rc', tref_copy_ctor rc th na t = some (h2, rc')
          ∧ h2.value = th.value ∧ h2.hasReg = true
          ∧ get_ref rc' = get_ref rc + 1 ∧ TrackedInv rc' ((na, t) :: regsL))
    ∧ (∀ rc th na t, (tref_move_ctor rc th na t).1.hasReg = th.hasReg
        ∧ (tref_move_ctor rc th na t).1.value = th.value
        ∧ (tref_move_ctor rc th na t).2.1.hasReg = false
        ∧ (tref_move_ctor rc th na t).2.1.value = none
        ∧ get_ref (tref_move_ctor rc th na t).2.2 = get_ref rc) := by
  obtain ⟨hrc, hval⟩ := h
  simp only [] at hr hv
  subst hr hv
  refine ⟨⟨rfl, rfl, ?_, ?_⟩, ⟨rfl, rfl, rfl, rfl, fun _ => rfl⟩, ?_, ?_⟩
  · show c_add_ref regs r r = regs r + 1
    rw [c_add_ref_at]
    exact size_t_add_one_eq _ hlt
  · intro x hx
    show c_add_ref regs r x = regs x
    exact c_add_ref_ne regs r x hx
  · intro rc regsL th na t hinv hreg hna hmem hlen
    obtain ⟨rc', e1, e2, e3, e4⟩ := registerHandle_inv rc regsL na t hinv hna hmem hlen
    refine ⟨⟨true, na, th.value⟩, rc', ?_, rfl, rfl, e3, e4⟩
    simp only [tref_copy_ctor, hreg, if_true]
    rw [e1]
    rfl
  · intro rc th na t
    exact ⟨rfl, rfl, rfl, rfl, rfl⟩

/-- Witness for C2 at the handle bound to registry 0 targeting address 5,
in the fresh registry state. -/
theorem claim_C2_witness :
    (CHandle.mk (some 0) (some 5)).ref_count = some 0
    ∧ (CHandle.mk (some 0) (some 5)).value = some 5
    ∧ fresh_cregs 0 + 1 < size_t_mod
    ∧ (cref_copy_ctor fresh_cregs ⟨some 0, some 5⟩).2.2 0 = fresh_cregs 0 + 1 :=
  ⟨rfl, rfl, by decide,
    (claim_C2 fresh_cregs ⟨some 0, some 5⟩ 0 5 rfl rfl (by decide)).1.2.2.1⟩

/-- C3: destroying an owner (referable or enable_ref_from_this) whose
registry reports a nonzero outstanding count invokes the failure handler
exactly once - whatever the magnitude of the count - and destroying it
with count zero does not invoke the handler; the enable_ref_from_this
destructor behaves identically to the referable destructor.  Stated for
the counter and list strategies; for the list strategy, additionally with
the count expressed through the number of registered handles. -/
theorem claim_C3 (n : Nat) (hn : 0 < n) :
    (counted_referable_dtor n).length = 1
    ∧ (counted_referable_dtor 0).length = 0
    ∧ (∀ c, counted_erft_dtor c = counted_referable_dtor c)
    ∧ (∀ rc fuel, get_ref rc ≠ 0 → (tracked_referable_dtor rc fuel).length = 1)
    ∧ (∀ rc fuel, get_ref rc = 0 → (tracked_referable_dtor rc fuel).length = 0)
    ∧ (∀ rc fuel, tracked_erft_dtor rc fuel = tracked_referable_dtor rc fuel)
    ∧ (∀ rc regs fuel, TrackedInv rc regs → regs ≠ [] →
        (tracked_referable_dtor rc fuel).length = 1)
    ∧ (∀ rc regs fuel, TrackedInv rc regs → regs = [] →
        (tracked_referable_dtor rc fuel).length = 0) := by
  refine ⟨?_, ?_, fun _ => rfl, ?_, ?_, fun _ _ => rfl, ?_, ?_⟩
  · simp [counted_referable_dtor, Nat.pos_iff_ne_zero.mp hn]
  · simp [counted_referable_dtor]
  · intro rc fuel hz
    simp [tracked_referable_dtor, hz]
  · intro rc fuel hz
    simp [tracked_referable_dtor, hz]
  · intro rc regs fuel hinv hne
    have hz : get_ref rc ≠ 0 := by
      show rc.ref_count ≠ 0
      rw [hinv.count_eq]
      have hp : 0 < regs.length := List.length_pos.mpr hne
      omega
    simp [tracked_referable_dtor, hz]
  · intro rc regs fuel hinv hnil
    have hz : get_ref rc = 0 := by
      show rc.ref_count = 0
      rw [hinv.count_eq, hnil]
      rfl
    simp [tracked_referable_dtor, hz]

/-- Witness for C3 at count 5. -/
theorem claim_C3_witness :
    0 < 5 ∧ (counted_referable_dtor 5).length = 1 :=
  ⟨by decide, (claim_C3 5 (by decide)).1⟩

/-- C4: a handle constructed by projecting a sub-field (member-pointer
constructor) registers against the same registry as a handle to the whole
boxed value: both store the address of the same `ref_count` member, and
after constructing one whole-value handle and one projected handle
against one fresh referable that referable's count is 2 (all other
registries untouched).  Stated for the counter strategy (where registry
identity is explicit) and, for the count, the list strategy (two
registrations against the referable's own `ref_counter` yield count 2). -/
theorem claim_C4 (b : CReferable) (fa : Nat) (n1 n2 ha ht t1 t2 : Nat)
    (h12 : n1 ≠ n2) (h1h : n1 ≠ ha) (h2h : n2 ≠ ha) :
    (cref_ctor_from_referable fresh_cregs b).1.ref_count = some b.regId
    ∧ (cref_ctor_project (cref_ctor_from_referable fresh_cregs b).2 b fa).1.ref_count
        = some b.regId
    ∧ (cref_ctor_project (cref_ctor_from_referable fresh_cregs b).2 b fa).1.value = some fa
    ∧ (cref_ctor_project (cref_ctor_from_referable fresh_cregs b).2 b fa).2 b.regId = 2
    ∧ (∀ x, x ≠ b.regId →
        (cref_ctor_project (cref_ctor_from_referable fresh_cregs b).2 b fa).2 x = 0)
    ∧ (∃ rc1 rc2, registerHandle (freshCounter ha ht) n1 t1 = some rc1
        ∧ registerHandle rc1 n2 t2 = some rc2 ∧ get_ref rc2 = 2) := by
  refine ⟨rfl, rfl, rfl, ?_, ?_, ?_⟩
  · show c_add_ref (c_add_ref fresh_cregs b.regId) b.regId b.regId = 2
    rw [c_add_ref_at, c_add_ref_at]
    show size_t_add_one (size_t_add_one 0) = 2
    decide
  · intro x hx
    show c_add_ref (c_add_ref fresh_cregs b.regId) b.regId x = 0
    rw [c_add_ref_ne _ _ _ hx, c_add_ref_ne _ _ _ hx]
    rfl
  · have i0 := freshCounter_inv ha ht
    obtain ⟨rc1, e1, e2, e3, i1⟩ :=
      registerHandle_inv (freshCounter ha ht) [] n1 t1 i0 h1h (by simp)
        (by show 0 + 1 < size_t_mod; decide)
    have hn2 : n2 ≠ rc1.headAddr := by rw [e2]; exact h2h
    have hn2m : n2 ∉ ([(n1, t1)] : List (Nat × Nat)).map Prod.fst := by
      simp
      exact fun hx => h12 hx.symm
    obtain ⟨rc2, f1, f2, f3, i2⟩ :=
      registerHandle_inv rc1 [(n1, t1)] n2 t2 i1 hn2 hn2m (by show 1 + 1 < size_t_mod; decide)
    refine ⟨rc1, rc2, e1, f1, ?_⟩
    show rc2.ref_count = 2
    rw [f3, e3]
    rfl

/-- Witness for C4: box identity 0, field address 7, node addresses 1 and
2, sentinel address 0. -/
theorem claim_C4_witness :
    (1 : Nat) ≠ 2 ∧ (1 : Nat) ≠ 0 ∧ (2 : Nat) ≠ 0
    ∧ (cref_ctor_project (cref_ctor_from_referable fresh_cregs ⟨0, 1⟩).2 ⟨0, 1⟩ 7).2 0 = 2 :=
  ⟨by decide, by decide, by decide,
    (claim_C4 ⟨0, 1⟩ 7 1 2 0 9 11 12 (by decide) (by decide) (by decide)).2.2.2.1⟩

/-- C5: the claim says the failure-time diagnostic enumerates exactly the
tags of the currently-registered handles, most recently registered first.
The code violates it: `add_ref` links a node at the front WITHOUT updating
the old front node's `prev`, so every registered node's `prev` points at
the sentinel; removing a node that is not at the front therefore rewrites
`head.next` to that node's successor, orphaning every newer node.
Concretely: register the handle at address 1 (tag 10), then the handle at
address 2 (tag 20), then deregister handle 1.  The currently-registered
stack is [(2, 20)] and the count is 1, but the enumerated diagnostic is
empty - tag 20 is missing. -/
theorem claim_C5_eval :
    absRun 0 [] [TrOp.add 1 10, TrOp.add 2 20, TrOp.remove 1] = some [(2, 20)]
    ∧ (trRun (freshCounter 0 99) [TrOp.add 1 10, TrOp.add 2 20, TrOp.remove 1]).map
        (fun rc => (get_ref rc, messageTags rc 10)) = some (1, [])
    ∧ (trRun (freshCounter 0 99) [TrOp.add 1 10, TrOp.add 2 20, TrOp.remove 1]).map
        (fun rc => messageTags rc 10) ≠ some [20]
    ∧ (trRun (freshCounter 0 99) [TrOp.add 1 10, TrOp.add 2 20, TrOp.remove 1]).map
        (fun rc => tracked_referable_dtor rc 10) = some [(1, [])] := by
  exact ⟨by decide, by decide, by decide, by decide⟩

/-- C6: the claim says both self-copy-assignment and self-move-assignment
are no-ops.  Copy assignment is guarded (`if (this == &other)`), but move
assignment has no guard: under the counter strategy `h = std::move(h)` on
a non-empty handle bound to a registry with count 1 decrements the count
to 0 and empties the handle, and under the list strategy it calls
`remove_ref` twice on the same node, the second call dereferencing the
node's now-null `prev` pointer (undefined behaviour, modelled as `none`). -/
theorem claim_C6_eval :
    (cref_copy_assign_self (fun _ => 1) ⟨some 0, some 5⟩).1 = ⟨some 0, some 5⟩
    ∧ (cref_copy_assign_self (fun _ => 1) ⟨some 0, some 5⟩).2 0 = 1
    ∧ (cref_move_assign_self (fun _ => 1) ⟨some 0, some 5⟩).1 = ⟨none, none⟩
    ∧ (cref_move_assign_self (fun _ => 1) ⟨some 0, some 5⟩).2 0 = 0
    ∧ (cref_move_assign_self (fun _ => 1) ⟨some 0, some 5⟩).2 0 ≠ 1
    ∧ cref_bool (cref_move_assign_self (fun _ => 1) ⟨some 0, some 5⟩).1 = false
    ∧ (registerHandle (freshCounter 0 99) 1 10).bind
        (fun rc => tref_move_assign_self rc ⟨true, 1, some 7⟩) = none := by
  exact ⟨rfl, rfl, rfl, by decide, by decide, rfl, rfl⟩

/-- C7: the claim says every linked node belongs to a live non-empty
handle and every deregistration unlinks a currently-linked node - in
particular that after move construction the registration is carried by a
node the destination later passes to `remove_ref`.  The code violates it:
the tracked move constructor copies the `ref_counter` pointer but leaves
the SOURCE's embedded node linked in the list (the failure message still
shows the source's tag 10 while the source is empty), and the
destination's own never-linked node (null `prev`) is what its destructor
passes to `remove_ref`, which dereferences the null `prev` (undefined
behaviour, modelled as `none`). -/
theorem claim_C7_eval :
    ((registerHandle (freshCounter 0 99) 1 10).map
        (fun rc => tref_move_ctor rc ⟨true, 1, some 5⟩ 2 20)).map
      (fun s => (s.1.hasReg, s.1.nodeAddr, s.1.value, s.2.1.hasReg, s.2.1.value,
        get_ref s.2.2, messageTags s.2.2 10))
      = some (true, 2, some 5, false, none, 1, [10])
    ∧ ((registerHandle (freshCounter 0 99) 1 10).map
        (fun rc => tref_move_ctor rc ⟨true, 1, some 5⟩ 2 20)).bind
      (fun s => tref_dtor s.2.2 s.1) = none := by
  exact ⟨rfl, rfl⟩

/-- C8 counterexample: the claim says copy/move ASSIGNMENT of an
enable_ref_from_this object leaves the destination's registry at count 0.
The assignment operators have empty bodies: assigning to an object whose
registry holds outstanding count 1 leaves the count at 1, not 0. -/
theorem claim_C8_counterexample :
    erft_copy_assign_count 1 0 = 1 ∧ erft_copy_assign_count 1 0 ≠ 0
    ∧ erft_move_assign_count 2 0 = 2 ∧ erft_move_assign_count 2 0 ≠ 0 :=
  ⟨rfl, by decide, rfl, by decide⟩

/-- C8 amended: copy and move CONSTRUCTION of an enable_ref_from_this
object start the destination's embedded registry at count 0 and never
carry over the source's registrations (the source is ignored entirely);
copy and move ASSIGNMENT leave the destination's registry untouched, so a
nonzero outstanding count persists through assignment. -/
theorem claim_C8_amended :
    (∀ s, erft_copy_ctor_count s = 0)
    ∧ (∀ s, erft_move_ctor_count s = 0)
    ∧ (∀ ha t, get_ref (freshCounter ha t) = 0)
    ∧ (∀ d s, erft_copy_assign_count d s = d)
    ∧ (∀ d s, erft_move_assign_count d s = d) :=
  ⟨fun _ => rfl, fun _ => rfl, fun _ _ => rfl, fun _ _ => rfl, fun _ _ => rfl⟩

/-- C9: the claim (and the header's own comment above the handler) says
the default handler raises a structured error carrying the message when
exceptions are enabled and terminates otherwise.  The default handler
actually installed writes the message to stderr, executes __debugbreak()
and calls std::terminate() unconditionally - it never raises, even with
exceptions enabled. -/
theorem claim_C9_eval :
    default_handler true "referable after free" =
      [HandlerEffect.wroteStderr "referable after free", HandlerEffect.debugBreak,
        HandlerEffect.terminated]
    ∧ HandlerEffect.raisedExc "referable after free" ∉ default_handler true "referable after free"
    ∧ default_handler true "referable after free"
        ≠ spec_default_handler true "referable after free"
    ∧ HandlerEffect.terminated ∈ default_handler false "referable after free" :=
  ⟨rfl, by decide, by decide, by decide⟩

/-- C10: the claim says that with no strategy macro defined, defining the
standard optimised-build macro NDEBUG selects the counted implementation.
The header instead tests the misspelled macro NDEBUB (which nothing
defines), so an NDEBUG build still gets the tracked implementation; only
defining NDEBUB - or an explicit strategy macro - selects counted. -/
theorem claim_C10_eval :
    selectImpl ⟨false, false, false, true, false⟩ = Strategy.tracked
    ∧ selectImpl ⟨false, false, false, true, false⟩ ≠ Strategy.counted
    ∧ selectImpl ⟨false, false, false, false, false⟩ = Strategy.tracked
    ∧ selectImpl ⟨false, false, false, false, true⟩ = Strategy.counted
    ∧ selectImpl ⟨false, true, false, true, false⟩ = Strategy.counted
    ∧ selectImpl ⟨true, false, false, true, false⟩ = Strategy.uncounted :=
  ⟨rfl, by decide, rfl, rfl, rfl, rfl⟩

end NaRefPtr
